import Mathlib

/-!
Verification of the set layer of a perfect-hash-table library
(`src/phf/src/set.rs` and `src/phf/src/ordered_set.rs`).

The set layer wraps a perfect-hash map (`Map` / `OrderedMap`), whose code is
not part of the sources under verification; it is modelled here from the
spec's collaborator contract (§6): `len()`, `keys()` in canonical order,
`contains_key(probe)` / `get_key(probe)` generic over equivalent probes, and
for the ordered variant `get_index(probe)` plus indexable access.  Keys are
carried as the list of entries in canonical (definition) order.
-/

namespace Phf

/-- Modelled from the spec: the external `PerfectHashMap<Key, Unit>` behind
`Set` (file `map.rs`, not under the verified sources).  Values are the unit
marker, so only the entry keys are carried, in the map's canonical order. -/
structure Map (α : Type) where
  entries : List α

variable {α : Type} {β : Type}

/-- Modelled from the spec: `len()` of the external map. -/
def Map.len (m : Map α) : Nat :=
  m.entries.length

/-- Modelled from the spec: `get_key(probe)` of the external map — the
canonical stored instance matching the probe, or absent. -/
def Map.get_key [DecidableEq α] (m : Map α) (key : α) : Option α :=
  m.entries.find? (fun t => t == key)

/-- Modelled from the spec: `contains_key(probe)` of the external map —
presence test, implemented as the lookup being non-absent. -/
def Map.contains_key [DecidableEq α] (m : Map α) (key : α) : Bool :=
  (m.get_key key).isSome

/-- Modelled from the spec: `get_key_equiv`-style lookup of the external map,
generic over any probe type equivalent to the key type; `eqv` is the
equivalence capability of the probe relative to the key. -/
def Map.get_key_equiv (m : Map α) (eqv : β → α → Bool) (key : β) : Option α :=
  m.entries.find? (fun t => eqv key t)

/-- Modelled from the spec: `get_equiv` of the external map — the unit value
stored under a key equivalent to the probe, or absent. -/
def Map.get_equiv (m : Map α) (eqv : β → α → Bool) (key : β) : Option Unit :=
  (m.get_key_equiv eqv key).map (fun _ => ())

/-- Modelled from the spec: `keys()` of the external map — the key sequence
in the map's canonical order. -/
def Map.keys (m : Map α) : List α :=
  m.entries

/-- Modelled from the spec: the external order-preserving
`PerfectHashMap<Key, Unit>` behind `OrderedSet` (file `ordered_map.rs`, not
under the verified sources).  Entries are kept in definition order. -/
structure OrderedMap (α : Type) where
  entries : List α

/-- Modelled from the spec: `len()` of the external ordered map. -/
def OrderedMap.len (m : OrderedMap α) : Nat :=
  m.entries.length

/-- Modelled from the spec: `get_key(probe)` of the external ordered map,
generic over any borrowed form of the key type (`T: Borrow<U>`); `borrow`
maps a stored key to its borrowed form. -/
def OrderedMap.get_key [DecidableEq β] (m : OrderedMap α) (borrow : α → β)
    (key : β) : Option α :=
  m.entries.find? (fun t => borrow t == key)

/-- Modelled from the spec: `contains_key(probe)` of the external ordered
map — presence test, implemented as the lookup being non-absent. -/
def OrderedMap.contains_key [DecidableEq β] (m : OrderedMap α) (borrow : α → β)
    (key : β) : Bool :=
  (m.get_key borrow key).isSome

/-- Modelled from the spec: `get_index(probe)` of the external ordered map —
the zero-based position of the matching key in definition order, or absent. -/
def OrderedMap.get_index [DecidableEq β] (m : OrderedMap α) (borrow : α → β)
    (key : β) : Option Nat :=
  m.entries.findIdx? (fun t => borrow t == key)

/-- Modelled from the spec: `keys()` of the external ordered map — the key
sequence in definition order. -/
def OrderedMap.keys (m : OrderedMap α) : List α :=
  m.entries

/-- `Set` from `set.rs`: an immutable set constructed at compile time,
wrapping a `Map<T, ()>`. -/
structure Set (α : Type) where
  map : Map α

/-- `Set::len` from `set.rs`. -/
def Set.len (s : Set α) : Nat :=
  s.map.len

/-- `Set::is_empty` from `set.rs`. -/
def Set.is_empty (s : Set α) : Bool :=
  s.len == 0

/-- `Set::get_key` from `set.rs`. -/
def Set.get_key [DecidableEq α] (s : Set α) (key : α) : Option α :=
  s.map.get_key key

/-- `Set::contains` from `set.rs`. -/
def Set.contains [DecidableEq α] (s : Set α) (value : α) : Bool :=
  s.map.contains_key value

/-- `Set::contains_equiv` from `set.rs`. -/
def Set.contains_equiv (s : Set α) (eqv : β → α → Bool) (key : β) : Bool :=
  (s.map.get_equiv eqv key).isSome

/-- `Set::get_key_equiv` from `set.rs`. -/
def Set.get_key_equiv (s : Set α) (eqv : β → α → Bool) (key : β) : Option α :=
  s.map.get_key_equiv eqv key

/-- `Items` from `set.rs`: the iterator over the values in a `Set`, a cursor
over the map's key iterator.  The state is the sequence of not-yet-yielded
keys. -/
structure Items (α : Type) where
  iter : List α

/-- `Set::iter` from `set.rs`. -/
def Set.iter (s : Set α) : Items α :=
  ⟨s.map.keys⟩

/-- `Iterator::next` for `Items` from `set.rs` (forwarding to the map's key
iterator, which yields the remaining keys front to back). -/
def Items.next : Items α → Option α × Items α
  | ⟨[]⟩ => (none, ⟨[]⟩)
  | ⟨a :: rest⟩ => (some a, ⟨rest⟩)

/-- `DoubleEndedIterator::next_back` for `Items` from `set.rs`. -/
def Items.next_back : Items α → Option α × Items α
  | ⟨[]⟩ => (none, ⟨[]⟩)
  | ⟨l⟩ => (l.getLast?, ⟨l.dropLast⟩)

/-- `Iterator::size_hint` for `Items` from `set.rs`; by `ExactSize`, both
bounds equal the exact remaining count. -/
def Items.size_hint (it : Items α) : Nat × Option Nat :=
  (it.iter.length, some it.iter.length)

/-- `Iterator::any` driving `Set::is_disjoint` from `set.rs`. -/
def Items.any (it : Items α) (p : α → Bool) : Bool :=
  it.iter.any p

/-- `Iterator::all` driving `Set::is_subset` from `set.rs`. -/
def Items.all (it : Items α) (p : α → Bool) : Bool :=
  it.iter.all p

/-- `Set::is_disjoint` from `set.rs`. -/
def Set.is_disjoint [DecidableEq α] (s other : Set α) : Bool :=
  !(s.iter.any (fun value => other.contains value))

/-- `Set::is_subset` from `set.rs`. -/
def Set.is_subset [DecidableEq α] (s other : Set α) : Bool :=
  s.iter.all (fun value => other.contains value)

/-- `Set::is_superset` from `set.rs`: delegates to `other.is_subset(self)`. -/
def Set.is_superset [DecidableEq α] (s other : Set α) : Bool :=
  other.is_subset s

/-- `OrderedSet` from `ordered_set.rs`: an order-preserving immutable set
constructed at compile time, wrapping an `OrderedMap<T, ()>`. -/
structure OrderedSet (α : Type) where
  map : OrderedMap α

/-- `OrderedSet::len` from `ordered_set.rs`. -/
def OrderedSet.len (s : OrderedSet α) : Nat :=
  s.map.len

/-- `OrderedSet::is_empty` from `ordered_set.rs`. -/
def OrderedSet.is_empty (s : OrderedSet α) : Bool :=
  s.len == 0

/-- `OrderedSet::get_key` from `ordered_set.rs`, generic over the borrowed
probe type. -/
def OrderedSet.get_key [DecidableEq β] (s : OrderedSet α) (borrow : α → β)
    (key : β) : Option α :=
  s.map.get_key borrow key

/-- `OrderedSet::get_index` from `ordered_set.rs`, generic over the borrowed
probe type. -/
def OrderedSet.get_index [DecidableEq β] (s : OrderedSet α) (borrow : α → β)
    (key : β) : Option Nat :=
  s.map.get_index borrow key

/-- `OrderedSet::contains` from `ordered_set.rs`, generic over the borrowed
probe type. -/
def OrderedSet.contains [DecidableEq β] (s : OrderedSet α) (borrow : α → β)
    (value : β) : Bool :=
  s.map.contains_key borrow value

/-- `Iter` from `ordered_set.rs`: the iterator over the values in an
`OrderedSet`, a cursor over the ordered map's key iterator.  The state is
the sequence of not-yet-yielded keys, in definition order. -/
structure Iter (α : Type) where
  iter : List α

/-- `OrderedSet::iter` from `ordered_set.rs`. -/
def OrderedSet.iter (s : OrderedSet α) : Iter α :=
  ⟨s.map.keys⟩

/-- `Iterator::next` for `Iter` from `ordered_set.rs`. -/
def Iter.next : Iter α → Option α × Iter α
  | ⟨[]⟩ => (none, ⟨[]⟩)
  | ⟨a :: rest⟩ => (some a, ⟨rest⟩)

/-- `DoubleEndedIterator::next_back` for `Iter` from `ordered_set.rs`. -/
def Iter.next_back : Iter α → Option α × Iter α
  | ⟨[]⟩ => (none, ⟨[]⟩)
  | ⟨l⟩ => (l.getLast?, ⟨l.dropLast⟩)

/-- `Iterator::size_hint` for `Iter` from `ordered_set.rs`; by
`ExactSizeIterator`, both bounds equal the exact remaining count. -/
def Iter.size_hint (it : Iter α) : Nat × Option Nat :=
  (it.iter.length, some it.iter.length)

/-- `RandomAccessIterator::indexable` for `Iter` from `ordered_set.rs`. -/
def Iter.indexable (it : Iter α) : Nat :=
  it.iter.length

/-- `RandomAccessIterator::idx` for `Iter` from `ordered_set.rs`:
position-addressed access into the remaining keys, absent when out of
range. -/
def Iter.idx (it : Iter α) (index : Nat) : Option α :=
  it.iter.get? index

/-- `Iterator::any` driving `OrderedSet::is_disjoint` from
`ordered_set.rs`. -/
def Iter.any (it : Iter α) (p : α → Bool) : Bool :=
  it.iter.any p

/-- `Iterator::all` driving `OrderedSet::is_subset` from
`ordered_set.rs`. -/
def Iter.all (it : Iter α) (p : α → Bool) : Bool :=
  it.iter.all p

/-- `OrderedSet::is_disjoint` from `ordered_set.rs`; the element references
yielded by `self.iter()` are probed into `other` through the reflexive
borrow. -/
def OrderedSet.is_disjoint [DecidableEq α] (s other : OrderedSet α) : Bool :=
  !(s.iter.any (fun value => other.contains id value))

/-- `OrderedSet::is_subset` from `ordered_set.rs`. -/
def OrderedSet.is_subset [DecidableEq α] (s other : OrderedSet α) : Bool :=
  s.iter.all (fun value => other.contains id value)

/-- `OrderedSet::is_superset` from `ordered_set.rs`: delegates to
`other.is_subset(self)`. -/
def OrderedSet.is_superset [DecidableEq α] (s other : OrderedSet α) : Bool :=
  other.is_subset s

/-- Exhausting an `Items` cursor through `next`: the sequence of values an
iteration of the `Set` produces. -/
def Items.collect (it : Items α) : List α :=
  match h : it.next with
  | (none, _) => []
  | (some a, it2) => a :: it2.collect
termination_by it.iter.length
decreasing_by
  cases it with
  | mk l =>
    cases l with
    | nil => simp [Items.next] at h
    | cons x xs =>
      simp only [Items.next, Prod.mk.injEq] at h
      obtain ⟨-, h2⟩ := h
      subst h2
      simp

/-- Exhausting an `Items` cursor through `next_back`: the sequence of values
a backward iteration of the `Set` produces. -/
def Items.collectBack (it : Items α) : List α :=
  match h : it.next_back with
  | (none, _) => []
  | (some a, it2) => a :: it2.collectBack
termination_by it.iter.length
decreasing_by
  cases it with
  | mk l =>
    cases l with
    | nil => simp [Items.next_back] at h
    | cons x xs =>
      simp only [Items.next_back, Prod.mk.injEq] at h
      obtain ⟨-, h2⟩ := h
      subst h2
      simp

/-- Stepping an `Items` cursor forward a given number of times. -/
def Items.stepN : Nat → Items α → Items α
  | 0, it => it
  | n + 1, it => Items.stepN n (it.next).2

/-- Exhausting an `Iter` cursor through `next`: the sequence of values an
iteration of the `OrderedSet` produces. -/
def Iter.collect (it : Iter α) : List α :=
  match h : it.next with
  | (none, _) => []
  | (some a, it2) => a :: it2.collect
termination_by it.iter.length
decreasing_by
  cases it with
  | mk l =>
    cases l with
    | nil => simp [Iter.next] at h
    | cons x xs =>
      simp only [Iter.next, Prod.mk.injEq] at h
      obtain ⟨-, h2⟩ := h
      subst h2
      simp

/-- Exhausting an `Iter` cursor through `next_back`: the sequence of values a
backward iteration of the `OrderedSet` produces. -/
def Iter.collectBack (it : Iter α) : List α :=
  match h : it.next_back with
  | (none, _) => []
  | (some a, it2) => a :: it2.collectBack
termination_by it.iter.length
decreasing_by
  cases it with
  | mk l =>
    cases l with
    | nil => simp [Iter.next_back] at h
    | cons x xs =>
      simp only [Iter.next_back, Prod.mk.injEq] at h
      obtain ⟨-, h2⟩ := h
      subst h2
      simp

/-- Stepping an `Iter` cursor forward a given number of times. -/
def Iter.stepN : Nat → Iter α → Iter α
  | 0, it => it
  | n + 1, it => Iter.stepN n (it.next).2

/-! ### Helper lemmas about the cursors -/

theorem Items.collect_mk (l : List α) : Items.collect ⟨l⟩ = l := by
  induction l with
  | nil => rw [Items.collect.eq_def]; rfl
  | cons a t ih =>
    rw [Items.collect.eq_def]
    simp only [Items.next]
    rw [ih]

theorem Items.collectBack_nil : Items.collectBack (⟨[]⟩ : Items α) = [] := by
  rw [Items.collectBack.eq_def]; rfl

theorem Items.collectBack_mk (l : List α) : Items.collectBack ⟨l⟩ = l.reverse := by
  induction l using List.reverseRecOn with
  | nil => exact Items.collectBack_nil
  | append_singleton t a ih =>
    have hnb : Items.next_back ⟨t ++ [a]⟩ = (some a, ⟨t⟩) := by
      cases t with
      | nil => rfl
      | cons b u =>
        have hred : Items.next_back ⟨(b :: u) ++ [a]⟩
            = (((b :: u) ++ [a]).getLast?, ⟨((b :: u) ++ [a]).dropLast⟩) := rfl
        rw [hred, List.getLast?_concat, List.dropLast_concat]
    rw [Items.collectBack.eq_def, hnb]
    show a :: Items.collectBack ⟨t⟩ = (t ++ [a]).reverse
    rw [ih]
    simp

theorem Items.stepN_mk (n : Nat) (l : List α) : Items.stepN n ⟨l⟩ = ⟨l.drop n⟩ := by
  induction n generalizing l with
  | zero => rfl
  | succ k ih =>
    cases l with
    | nil => simp [Items.stepN, Items.next, ih]
    | cons a t => simp [Items.stepN, Items.next, ih]

theorem Iter.ordered_collect_mk (l : List α) : Iter.collect ⟨l⟩ = l := by
  induction l with
  | nil => rw [Iter.collect.eq_def]; rfl
  | cons a t ih =>
    rw [Iter.collect.eq_def]
    simp only [Iter.next]
    rw [ih]

theorem Iter.ordered_collectBack_nil : Iter.collectBack (⟨[]⟩ : Iter α) = [] := by
  rw [Iter.collectBack.eq_def]; rfl

theorem Iter.ordered_collectBack_mk (l : List α) : Iter.collectBack ⟨l⟩ = l.reverse := by
  induction l using List.reverseRecOn with
  | nil => exact Iter.ordered_collectBack_nil
  | append_singleton t a ih =>
    have hnb : Iter.next_back ⟨t ++ [a]⟩ = (some a, ⟨t⟩) := by
      cases t with
      | nil => rfl
      | cons b u =>
        have hred : Iter.next_back ⟨(b :: u) ++ [a]⟩
            = (((b :: u) ++ [a]).getLast?, ⟨((b :: u) ++ [a]).dropLast⟩) := rfl
        rw [hred, List.getLast?_concat, List.dropLast_concat]
    rw [Iter.collectBack.eq_def, hnb]
    show a :: Iter.collectBack ⟨t⟩ = (t ++ [a]).reverse
    rw [ih]
    simp

theorem Iter.ordered_stepN_mk (n : Nat) (l : List α) : Iter.stepN n ⟨l⟩ = ⟨l.drop n⟩ := by
  induction n generalizing l with
  | zero => rfl
  | succ k ih =>
    cases l with
    | nil => simp [Iter.stepN, Iter.next, ih]
    | cons a t => simp [Iter.stepN, Iter.next, ih]

/-! ### Helper lemmas about the lookups -/

theorem find_beq_of_mem [DecidableEq α] {l : List α} {x : α} (hx : x ∈ l) :
    l.find? (fun t => t == x) = some x := by
  have hs : (l.find? (fun t => t == x)).isSome = true :=
    List.find?_isSome.mpr ⟨x, hx, by simp⟩
  obtain ⟨y, hy⟩ := Option.isSome_iff_exists.mp hs
  have hyx : y = x := by simpa using List.find?_some hy
  rw [hy, hyx]

theorem find_beq_of_not_mem [DecidableEq α] {l : List α} {x : α} (hx : x ∉ l) :
    l.find? (fun t => t == x) = none := by
  rw [List.find?_eq_none]
  intro y hy
  simp only [beq_iff_eq]
  intro hyx
  exact hx (hyx ▸ hy)

theorem Set.contains_eq_mem [DecidableEq α] (s : Set α) (x : α) :
    s.contains x = decide (x ∈ s.map.entries) := by
  by_cases hx : x ∈ s.map.entries
  · show (Map.get_key s.map x).isSome = _
    unfold Map.get_key
    rw [find_beq_of_mem hx]
    simp [hx]
  · show (Map.get_key s.map x).isSome = _
    unfold Map.get_key
    rw [find_beq_of_not_mem hx]
    simp [hx]

theorem OrderedSet.contains_id_eq_mem [DecidableEq α] (s : OrderedSet α) (x : α) :
    s.contains id x = decide (x ∈ s.map.entries) := by
  have hpr : (fun t : α => id t == x) = (fun t : α => t == x) := rfl
  by_cases hx : x ∈ s.map.entries
  · show (OrderedMap.get_key s.map id x).isSome = _
    unfold OrderedMap.get_key
    rw [hpr, find_beq_of_mem hx]
    simp [hx]
  · show (OrderedMap.get_key s.map id x).isSome = _
    unfold OrderedMap.get_key
    rw [hpr, find_beq_of_not_mem hx]
    simp [hx]

/-! ### Claim theorems -/

/-- C1: for every `Set` and `OrderedSet` and every element inserted at
construction, `contains` returns true and `get_key` returns the stored
instance comparing equal to it; for every element never inserted, `contains`
returns false and `get_key` is absent. -/
theorem c1_membership_and_interning [DecidableEq α] (s : Set α) (t : OrderedSet α) (x : α) :
    (x ∈ s.map.entries → s.contains x = true ∧ s.get_key x = some x) ∧
    (x ∉ s.map.entries → s.contains x = false ∧ s.get_key x = none) ∧
    (x ∈ t.map.entries → t.contains id x = true ∧ t.get_key id x = some x) ∧
    (x ∉ t.map.entries → t.contains id x = false ∧ t.get_key id x = none) := by
  have hpr : (fun u : α => id u == x) = (fun u : α => u == x) := rfl
  refine ⟨fun hx => ?_, fun hx => ?_, fun hx => ?_, fun hx => ?_⟩
  · have hk : s.get_key x = some x := by
      show Map.get_key s.map x = some x
      unfold Map.get_key
      exact find_beq_of_mem hx
    refine ⟨?_, hk⟩
    show (Map.get_key s.map x).isSome = true
    rw [show Map.get_key s.map x = s.get_key x from rfl, hk]
    rfl
  · have hk : s.get_key x = none := by
      show Map.get_key s.map x = none
      unfold Map.get_key
      exact find_beq_of_not_mem hx
    refine ⟨?_, hk⟩
    show (Map.get_key s.map x).isSome = false
    rw [show Map.get_key s.map x = s.get_key x from rfl, hk]
    rfl
  · have hk : t.get_key id x = some x := by
      show OrderedMap.get_key t.map id x = some x
      unfold OrderedMap.get_key
      rw [hpr]
      exact find_beq_of_mem hx
    refine ⟨?_, hk⟩
    show (OrderedMap.get_key t.map id x).isSome = true
    rw [show OrderedMap.get_key t.map id x = t.get_key id x from rfl, hk]
    rfl
  · have hk : t.get_key id x = none := by
      show OrderedMap.get_key t.map id x = none
      unfold OrderedMap.get_key
      rw [hpr]
      exact find_beq_of_not_mem hx
    refine ⟨?_, hk⟩
    show (OrderedMap.get_key t.map id x).isSome = false
    rw [show OrderedMap.get_key t.map id x = t.get_key id x from rfl, hk]
    rfl

/-- Witness for C1 on concrete sets: membership and absence behave as
claimed on `{1, 2}` and on the ordered set `{5}`. -/
theorem c1_witness :
    (Set.contains (⟨⟨[1, 2]⟩⟩ : Set Nat) 1 = true ∧
      Set.get_key (⟨⟨[1, 2]⟩⟩ : Set Nat) 1 = some 1) ∧
    (Set.contains (⟨⟨[1, 2]⟩⟩ : Set Nat) 3 = false ∧
      Set.get_key (⟨⟨[1, 2]⟩⟩ : Set Nat) 3 = none) ∧
    (OrderedSet.contains (⟨⟨[5]⟩⟩ : OrderedSet Nat) id 5 = true ∧
      OrderedSet.get_key (⟨⟨[5]⟩⟩ : OrderedSet Nat) id 5 = some 5) ∧
    (OrderedSet.contains (⟨⟨[5]⟩⟩ : OrderedSet Nat) id 6 = false ∧
      OrderedSet.get_key (⟨⟨[5]⟩⟩ : OrderedSet Nat) id 6 = none) :=
  ⟨(c1_membership_and_interning ⟨⟨[1, 2]⟩⟩ ⟨⟨[5]⟩⟩ 1).1 (by decide),
   (c1_membership_and_interning ⟨⟨[1, 2]⟩⟩ ⟨⟨[5]⟩⟩ 3).2.1 (by decide),
   (c1_membership_and_interning ⟨⟨[1, 2]⟩⟩ ⟨⟨[5]⟩⟩ 5).2.2.1 (by decide),
   (c1_membership_and_interning ⟨⟨[1, 2]⟩⟩ ⟨⟨[5]⟩⟩ 6).2.2.2 (by decide)⟩

/-- C3: `is_superset` is exactly `is_subset` flipped — for all sets of the
same kind, `A.is_superset(B) == B.is_subset(A)`, the iteration being driven
by the other set. -/
theorem c3_superset_is_flipped_subset [DecidableEq α]
    (a b : Set α) (c d : OrderedSet α) :
    a.is_superset b = b.is_subset a ∧ c.is_superset d = d.is_subset c :=
  ⟨rfl, rfl⟩

/-- C4: for sets of the same kind, being disjoint from and simultaneously a
subset of the same other set forces emptiness. -/
theorem c4_disjoint_and_subset_empty [DecidableEq α]
    (a b : Set α) (c d : OrderedSet α) :
    (a.is_disjoint b = true → a.is_subset b = true → a.is_empty = true) ∧
    (c.is_disjoint d = true → c.is_subset d = true → c.is_empty = true) := by
  constructor
  · intro hdis hsub
    have hdis2 : a.map.entries.any (fun value => b.contains value) = false := by
      have h1 : (!a.map.entries.any (fun value => b.contains value)) = true := hdis
      simpa using h1
    have hsub2 : a.map.entries.all (fun value => b.contains value) = true := hsub
    cases hent : a.map.entries with
    | nil =>
      show (a.map.entries.length == 0) = true
      rw [hent]
      rfl
    | cons y rest =>
      exfalso
      have hy : y ∈ a.map.entries := by rw [hent]; exact List.mem_cons_self y rest
      have ht : b.contains y = true := List.all_eq_true.mp hsub2 y hy
      have hf : ¬(b.contains y = true) := by
        have := List.any_eq_false.mp hdis2
        exact this y hy
      exact hf ht
  · intro hdis hsub
    have hdis2 : c.map.entries.any (fun value => d.contains id value) = false := by
      have h1 : (!c.map.entries.any (fun value => d.contains id value)) = true := hdis
      simpa using h1
    have hsub2 : c.map.entries.all (fun value => d.contains id value) = true := hsub
    cases hent : c.map.entries with
    | nil =>
      show (c.map.entries.length == 0) = true
      rw [hent]
      rfl
    | cons y rest =>
      exfalso
      have hy : y ∈ c.map.entries := by rw [hent]; exact List.mem_cons_self y rest
      have ht : d.contains id y = true := List.all_eq_true.mp hsub2 y hy
      have hf : ¬(d.contains id y = true) := by
        have := List.any_eq_false.mp hdis2
        exact this y hy
      exact hf ht

/-- Witness for C4 on concrete sets: the empty set is disjoint from and a
subset of `{1}`, and is indeed empty. -/
theorem c4_witness :
    (Set.is_disjoint (⟨⟨[]⟩⟩ : Set Nat) ⟨⟨[1]⟩⟩ = true ∧
      Set.is_subset (⟨⟨[]⟩⟩ : Set Nat) ⟨⟨[1]⟩⟩ = true ∧
      Set.is_empty (⟨⟨[]⟩⟩ : Set Nat) = true) ∧
    (OrderedSet.is_disjoint (⟨⟨[]⟩⟩ : OrderedSet Nat) ⟨⟨[1]⟩⟩ = true ∧
      OrderedSet.is_subset (⟨⟨[]⟩⟩ : OrderedSet Nat) ⟨⟨[1]⟩⟩ = true ∧
      OrderedSet.is_empty (⟨⟨[]⟩⟩ : OrderedSet Nat) = true) :=
  ⟨⟨by decide, by decide,
    (c4_disjoint_and_subset_empty ⟨⟨[]⟩⟩ ⟨⟨[1]⟩⟩ ⟨⟨[]⟩⟩ ⟨⟨[1]⟩⟩).1
      (by decide) (by decide)⟩,
   ⟨by decide, by decide,
    (c4_disjoint_and_subset_empty (⟨⟨[]⟩⟩ : Set Nat) ⟨⟨[1]⟩⟩ ⟨⟨[]⟩⟩ ⟨⟨[1]⟩⟩).2
      (by decide) (by decide)⟩⟩

/-- C5: for every set, `len` equals the number of items produced by one full
iteration, and after any number of forward steps the size hint reports the
exact remaining count as both lower and upper bound. -/
theorem c5_len_and_exact_size_hint (s : Set α) (t : OrderedSet α) (k : Nat) :
    s.iter.collect.length = s.len ∧
    t.iter.collect.length = t.len ∧
    (Items.stepN k s.iter).size_hint = (s.len - k, some (s.len - k)) ∧
    (Iter.stepN k t.iter).size_hint = (t.len - k, some (t.len - k)) := by
  refine ⟨?_, ?_, ?_, ?_⟩
  · show (Items.collect ⟨s.map.entries⟩).length = s.map.entries.length
    rw [Items.collect_mk]
  · show (Iter.collect ⟨t.map.entries⟩).length = t.map.entries.length
    rw [Iter.ordered_collect_mk]
  · show (Items.stepN k ⟨s.map.entries⟩).size_hint = _
    rw [Items.stepN_mk]
    show (_, some (s.map.entries.drop k).length) = _
    rw [List.length_drop]
    rfl
  · show (Iter.stepN k ⟨t.map.entries⟩).size_hint = _
    rw [Iter.ordered_stepN_mk]
    show (_, some (t.map.entries.drop k).length) = _
    rw [List.length_drop]
    rfl

/-- C6: for every `OrderedSet`, backward iteration produces exactly the
reverse of forward iteration, and forward iteration equals definition
order. -/
theorem c6_backward_is_reverse_of_forward (t : OrderedSet α) :
    t.iter.collectBack = t.iter.collect.reverse ∧
    t.iter.collect = t.map.entries := by
  have hfwd : t.iter.collect = t.map.entries := by
    show Iter.collect ⟨t.map.entries⟩ = t.map.entries
    rw [Iter.ordered_collect_mk]
  refine ⟨?_, hfwd⟩
  show Iter.collectBack ⟨t.map.entries⟩ = t.iter.collect.reverse
  rw [Iter.ordered_collectBack_mk, hfwd]

/-- C9: membership testing and canonical-key retrieval agree on exactly the
same probes: `contains` is true iff `get_key` is present, and likewise for
the equivalence-probe variants. -/
theorem c9_contains_agrees_with_get_key [DecidableEq α] [DecidableEq β]
    (s : Set α) (k : α) (eqv : β → α → Bool) (kb : β)
    (t : OrderedSet α) (borrow : α → β) (v : β) :
    s.contains k = (s.get_key k).isSome ∧
    s.contains_equiv eqv kb = (s.get_key_equiv eqv kb).isSome ∧
    t.contains borrow v = (t.get_key borrow v).isSome := by
  refine ⟨rfl, ?_, rfl⟩
  show ((Map.get_key_equiv s.map eqv kb).map (fun _ => ())).isSome
      = (Map.get_key_equiv s.map eqv kb).isSome
  cases Map.get_key_equiv s.map eqv kb with
  | none => rfl
  | some y => rfl

/-- C2: for an `OrderedSet` with the builder-guaranteed distinct keys,
`get_index` applied to the element at position `i` of forward iteration
returns `some i`. -/
theorem c2_get_index_of_forward_position [DecidableEq α] (s : OrderedSet α)
    (hnd : s.map.entries.Nodup) (i : Nat) (x : α)
    (hx : s.iter.collect.get? i = some x) :
    s.get_index id x = some i := by
  have hx2 : s.map.entries.get? i = some x := by
    have hcol : s.iter.collect = s.map.entries := by
      show Iter.collect ⟨s.map.entries⟩ = s.map.entries
      rw [Iter.ordered_collect_mk]
    rwa [hcol] at hx
  rw [List.get?_eq_getElem?] at hx2
  obtain ⟨hlt, hgi⟩ := List.getElem?_eq_some.mp hx2
  show List.findIdx? (fun u => id u == x) s.map.entries = some i
  apply List.findIdx?_eq_some_iff_getElem.mpr
  refine ⟨hlt, by simp [hgi], ?_⟩
  intro j hji
  have hjlt : j < s.map.entries.length := Nat.lt_trans hji hlt
  simp only [id_eq, beq_iff_eq, Bool.not_eq_true, decide_eq_false_iff_not]
  intro hjx
  have hij : j = i :=
    (List.Nodup.getElem_inj_iff hnd).mp (hjx.trans hgi.symm)
  exact absurd hij (Nat.ne_of_lt hji)

/-- Witness for C2 on the ordered set `[10, 20, 30]`: the element at
position 1 of forward iteration has index 1. -/
theorem c2_witness :
    ((⟨⟨[10, 20, 30]⟩⟩ : OrderedSet Nat).map.entries.Nodup ∧
      (⟨⟨[10, 20, 30]⟩⟩ : OrderedSet Nat).iter.collect.get? 1 = some 20) ∧
    OrderedSet.get_index (⟨⟨[10, 20, 30]⟩⟩ : OrderedSet Nat) id 20 = some 1 := by
  have h1 : (⟨⟨[10, 20, 30]⟩⟩ : OrderedSet Nat).iter.collect.get? 1 = some 20 := by
    show (Iter.collect ⟨[10, 20, 30]⟩).get? 1 = some 20
    rw [Iter.ordered_collect_mk]
    rfl
  exact ⟨⟨by decide, h1⟩,
    c2_get_index_of_forward_position ⟨⟨[10, 20, 30]⟩⟩ (by decide) 1 20 h1⟩

/-- C7: absence is reported as an absent result, never an error: missing
probes give `none`/`false` from `get_key`, `contains` and `get_index`, and
out-of-range indexed access through the iterator gives `none`. -/
theorem c7_absence_is_absent_result [DecidableEq α] (s : Set α) (t : OrderedSet α)
    (x : α) (i : Nat) :
    (x ∉ s.map.entries → s.get_key x = none ∧ s.contains x = false) ∧
    (x ∉ t.map.entries →
      t.get_key id x = none ∧ t.contains id x = false ∧ t.get_index id x = none) ∧
    (t.len ≤ i → t.iter.idx i = none) := by
  have hpr : (fun u : α => id u == x) = (fun u : α => u == x) := rfl
  refine ⟨fun hx => ?_, fun hx => ?_, fun hi => ?_⟩
  · have hk : s.get_key x = none := by
      show Map.get_key s.map x = none
      unfold Map.get_key
      exact find_beq_of_not_mem hx
    refine ⟨hk, ?_⟩
    show (Map.get_key s.map x).isSome = false
    rw [show Map.get_key s.map x = s.get_key x from rfl, hk]
    rfl
  · have hk : t.get_key id x = none := by
      show OrderedMap.get_key t.map id x = none
      unfold OrderedMap.get_key
      rw [hpr]
      exact find_beq_of_not_mem hx
    refine ⟨hk, ?_, ?_⟩
    · show (OrderedMap.get_key t.map id x).isSome = false
      rw [show OrderedMap.get_key t.map id x = t.get_key id x from rfl, hk]
      rfl
    · show List.findIdx? (fun u => id u == x) t.map.entries = none
      apply List.findIdx?_eq_none_iff.mpr
      intro y hy
      simp only [id_eq, beq_eq_false_iff_ne, ne_eq]
      intro hyx
      exact hx (hyx ▸ hy)
  · show t.map.entries.get? i = none
    exact List.get?_eq_none.mpr hi

/-- Witness for C7: the probe 7 is absent from both `{1}` and the ordered
set `{2}`, and index 5 is out of range for the latter's iterator. -/
theorem c7_witness :
    (Set.get_key (⟨⟨[1]⟩⟩ : Set Nat) 7 = none ∧
      Set.contains (⟨⟨[1]⟩⟩ : Set Nat) 7 = false) ∧
    (OrderedSet.get_key (⟨⟨[2]⟩⟩ : OrderedSet Nat) id 7 = none ∧
      OrderedSet.contains (⟨⟨[2]⟩⟩ : OrderedSet Nat) id 7 = false ∧
      OrderedSet.get_index (⟨⟨[2]⟩⟩ : OrderedSet Nat) id 7 = none) ∧
    Iter.idx (OrderedSet.iter (⟨⟨[2]⟩⟩ : OrderedSet Nat)) 5 = none :=
  ⟨(c7_absence_is_absent_result ⟨⟨[1]⟩⟩ ⟨⟨[2]⟩⟩ 7 5).1 (by decide),
   (c7_absence_is_absent_result ⟨⟨[1]⟩⟩ ⟨⟨[2]⟩⟩ 7 5).2.1 (by decide),
   (c7_absence_is_absent_result ⟨⟨[1]⟩⟩ ⟨⟨[2]⟩⟩ 7 5).2.2 (by decide)⟩

/-- C8: `contains` (and its generic-probe forms) is true exactly when an
element equal to the probe exists, for probes of the key type, of any type
equivalent to it (`contains_equiv`), and of any borrowed form of it
(`OrderedSet::contains`). -/
theorem c8_contains_for_equivalent_probes [DecidableEq α] [DecidableEq β]
    (s : Set α) (k : α) (eqv : β → α → Bool) (kb : β)
    (t : OrderedSet α) (borrow : α → β) (v : β) :
    (s.contains k = true ↔ ∃ y ∈ s.map.entries, y = k) ∧
    (s.contains_equiv eqv kb = true ↔ ∃ y ∈ s.map.entries, eqv kb y = true) ∧
    (t.contains borrow v = true ↔ ∃ y ∈ t.map.entries, borrow y = v) := by
  refine ⟨?_, ?_, ?_⟩
  · show (s.map.entries.find? (fun u => u == k)).isSome = true ↔ _
    rw [List.find?_isSome]
    simp
  · show ((s.map.entries.find? (fun u => eqv kb u)).map (fun _ => ())).isSome = true ↔ _
    rw [Option.isSome_map', List.find?_isSome]
  · show (t.map.entries.find? (fun u => borrow u == v)).isSome = true ↔ _
    rw [List.find?_isSome]
    simp

/-- `is_disjoint` on `Set` holds exactly when no element of the left set
belongs to the right set. -/
theorem Set.is_disjoint_iff [DecidableEq α] (a b : Set α) :
    a.is_disjoint b = true ↔ ∀ x ∈ a.map.entries, x ∉ b.map.entries := by
  show (!a.map.entries.any (fun v => b.contains v)) = true ↔ _
  rw [Bool.not_eq_true', List.any_eq_false]
  constructor
  · intro h x hx hxb
    have hc := h x hx
    rw [Set.contains_eq_mem] at hc
    simp only [decide_eq_true_eq] at hc
    exact hc hxb
  · intro h x hx
    rw [Set.contains_eq_mem]
    simp only [decide_eq_true_eq]
    exact h x hx

/-- `is_disjoint` on `OrderedSet` holds exactly when no element of the left
set belongs to the right set. -/
theorem OrderedSet.ordered_is_disjoint_iff [DecidableEq α] (a b : OrderedSet α) :
    a.is_disjoint b = true ↔ ∀ x ∈ a.map.entries, x ∉ b.map.entries := by
  show (!a.map.entries.any (fun v => b.contains id v)) = true ↔ _
  rw [Bool.not_eq_true', List.any_eq_false]
  constructor
  · intro h x hx hxb
    have hc := h x hx
    rw [OrderedSet.contains_id_eq_mem] at hc
    simp only [decide_eq_true_eq] at hc
    exact hc hxb
  · intro h x hx
    rw [OrderedSet.contains_id_eq_mem]
    simp only [decide_eq_true_eq]
    exact h x hx

/-- C10: `is_disjoint` is symmetric for both kinds of set, although the
implementation iterates only over `self` and probes `other`. -/
theorem c10_disjoint_symmetric [DecidableEq α] (a b : Set α) (c d : OrderedSet α) :
    a.is_disjoint b = b.is_disjoint a ∧ c.is_disjoint d = d.is_disjoint c := by
  constructor
  · rw [Bool.eq_iff_iff, Set.is_disjoint_iff, Set.is_disjoint_iff]
    exact ⟨fun h x hxb hxa => h x hxa hxb, fun h x hxa hxb => h x hxb hxa⟩
  · rw [Bool.eq_iff_iff, OrderedSet.ordered_is_disjoint_iff, OrderedSet.ordered_is_disjoint_iff]
    exact ⟨fun h x hxb hxa => h x hxa hxb, fun h x hxa hxb => h x hxb hxa⟩

end Phf
